import Mathlib

/-!
Verification of the encrypted-content-encoding library (`nodejs/ece.js`).

Shallow embedding conventions:
* Byte strings (`Buffer`) are `List Nat` with every element `< 256`.
* base64url transport encoding is out of scope per the spec; parameters carry
  the already-decoded bytes, so `base64.decode` at the API boundary is the
  identity of this model.
* `HMAC-SHA256` and `AES-128-GCM` live in node's `crypto` module, outside this
  repository; they are parameters of the definitions (`hmac`, `Aead`), as the
  spec treats them as black-box collaborators.  Theorems that need their
  contracts (32-byte digests, AEAD inversion) take them as hypotheses.
* JavaScript `while`/`for` loops are modelled by fuel-based structural
  recursion; each call site passes fuel that provably suffices, and running
  out of fuel (only possible where the JavaScript loop would not terminate)
  is the dedicated error `outOfFuel`.
* Absent (`undefined`) or falsy parameters are `Option.none`.
-/

namespace Ece

abbrev ByteList := List Nat

/-- Errors thrown by the library (each constructor is one `throw new Error`
site, plus the runtime errors node itself raises on the same path). -/
inductive EceError where
  | badKeyLength
  | unableToDetermineKey
  | noDhKey
  | noDhLabel
  | unknownMode
  /-- A JavaScript `TypeError`: a method was invoked on a value that does not
  have it (e.g. `readHeader(buffer, params)` called with swapped arguments so
  that `params.readUIntBE` is not a function, or `getPublicKey` on a raw
  `Buffer`). -/
  | typeError
  | missingSalt
  | badSaltLength
  | unknownVariant
  | badRecordSize
  /-- A node `RangeError` from `Buffer.writeUIntBE` / `readUIntBE` when the
  value or the slice is out of range. -/
  | rangeError
  | keyidTooLong
  | truncated
  | blockTooSmall
  | aeadFailure
  | paddingExceedsBlock
  | invalidPadding
  | padBudgetExhausted
  | invalidTag
  /-- Fuel exhaustion: reached only where the JavaScript loop itself would
  run forever (e.g. `encrypt` with `rs ≤ padSize`, which
  `determineRecordSize` rules out before any loop runs). -/
  | outOfFuel
  deriving Repr, DecidableEq

/-- `buffer.readUIntBE(0, bs.length)`: big-endian interpretation of bytes. -/
def readUIntBE (bs : ByteList) : Nat :=
  bs.foldl (fun a b => a * 256 + b) 0

/-- `buffer.writeUIntBE(v, 0, w)`: the `w`-byte big-endian encoding of `v`
(the value is in range, `v < 256^w`, at every call site; node would throw a
`RangeError` otherwise). -/
def natToBE : Nat → Nat → ByteList
  | 0, _ => []
  | w + 1, v => natToBE w (v / 256) ++ [v % 256]

/-- `new Buffer(s, 'ascii')`.  Every string the library converts is 7-bit
ASCII, where node's `ascii`/`utf8` encodings agree with this byte-for-byte. -/
def asciiBytes (s : String) : ByteList :=
  s.data.map (fun c => c.toNat % 128)

def TAG_LENGTH : Nat := 16
def KEY_LENGTH : Nat := 16
def NONCE_LENGTH : Nat := 12
def SHA_256_LENGTH : Nat := 32
def MODE_ENCRYPT : String := "encrypt"
def MODE_DECRYPT : String := "decrypt"
def typeAesgcm : String := "aesgcm"
def typeAesgcm128 : String := "aesgcm128"
def typeAes128gcm : String := "aes128gcm"

/-- `PAD_SIZE = { 'aes128gcm': 2, 'aesgcm': 2, 'aesgcm128': 1 }` as a partial
map: an unknown key yields `undefined` in JavaScript. -/
def PAD_SIZEMap (t : String) : Option Nat :=
  if t = typeAes128gcm then some 2
  else if t = typeAesgcm then some 2
  else if t = typeAesgcm128 then some 1
  else none

/-- `PAD_SIZE[type]` at the call sites where `type` is one of the three
variants (the only values that reach them); `0` stands for the unreachable
`undefined`. -/
def PAD_SIZE (t : String) : Nat :=
  (PAD_SIZEMap t).getD 0

/-- `HMAC_hash` is `crypto.createHmac('sha256', key)`; the whole development
is parametric in it, so it appears as the `hmac` argument below.
`HKDF_extract(salt, ikm) = HMAC_hash(salt, ikm)`. -/
def HKDF_extract (hmac : ByteList → ByteList → ByteList) (salt ikm : ByteList) : ByteList :=
  hmac salt ikm

/-- The `while (output.length < l)` loop of `HKDF_expand`.  Each iteration
appends `T = HMAC(prk, T || info || byte(counter))`.  When the fuel runs out
the accumulated prefix is returned; the call site passes fuel `l`, which
suffices because each SHA-256 digest adds 32 bytes. -/
def HKDF_expandLoop (hmac : ByteList → ByteList → ByteList) (prk info : ByteList)
    (l : Nat) : Nat → ByteList → ByteList → Nat → ByteList
  | 0, output, _, _ => output.take l
  | fuel + 1, output, T, counter =>
    if output.length < l then
      let T2 := hmac prk (T ++ info ++ [(counter + 1) % 256])
      HKDF_expandLoop hmac prk info l fuel (output ++ T2) T2 (counter + 1)
    else output.take l

def HKDF_expand (hmac : ByteList → ByteList → ByteList) (prk info : ByteList)
    (l : Nat) : ByteList :=
  HKDF_expandLoop hmac prk info l l [] [] 0

def HKDF (hmac : ByteList → ByteList → ByteList) (salt ikm info : ByteList)
    (len : Nat) : ByteList :=
  HKDF_expand hmac (HKDF_extract hmac salt ikm) info len

/-- `info(base, context)`: `"Content-Encoding: " + base + "\0"` then the
context blob. -/
def infoBytes (base : String) (context : ByteList) : ByteList :=
  asciiBytes ("Content-Encoding: " ++ base) ++ [0] ++ context

/-- `lengthPrefix(buffer)`: a 2-byte big-endian length then the bytes. -/
def lengthPrefixed (buffer : ByteList) : ByteList :=
  natToBE 2 buffer.length ++ buffer

/-- `generateNonce(base, counter)`: the source XORs the counter into the last
6 bytes of the nonce base in two 24-bit halves (JavaScript bitwise operators
are 32-bit).  `m / 0x1000000` is float division truncated by `ToInt32`, which
for the 48-bit values in play is `Nat` division. -/
def generateNonce (base : ByteList) (counter : Nat) : ByteList :=
  let m := readUIntBE (base.drop (base.length - 6))
  let x := ((m ^^^ counter) &&& 0xffffff) +
      (((m / 0x1000000) ^^^ (counter / 0x1000000)) &&& 0xffffff) * 0x1000000
  base.take (base.length - 6) ++ natToBE 6 x

instance {e a : Type} [DecidableEq e] [DecidableEq a] : DecidableEq (Except e a) :=
  fun x y =>
  match x, y with
  | .error e1, .error e2 =>
    if h : e1 = e2 then .isTrue (congrArg Except.error h)
    else .isFalse (fun hc => h (Except.error.inj hc))
  | .ok v1, .ok v2 =>
    if h : v1 = v2 then .isTrue (congrArg Except.ok h)
    else .isFalse (fun hc => h (Except.ok.inj hc))
  | .error _, .ok _ => .isFalse (fun hc => Except.noConfusion hc)
  | .ok _, .error _ => .isFalse (fun hc => Except.noConfusion hc)

/-- A value stored in `savedKeys`: either raw key bytes or an ECDH key pair
object (`crypto.createECDH`), modelled by its public-key bytes and its
`computeSecret` method. -/
inductive KeyEntry where
  | raw (bytes : ByteList)
  | ecdh (pub : ByteList) (computeSecret : ByteList → ByteList)

/-- The module-level `savedKeys` and `keyLabels` objects. -/
structure KeyStore where
  savedKeys : String → Option KeyEntry
  keyLabels : String → Option ByteList

def emptyStore : KeyStore :=
  { savedKeys := fun _ => none, keyLabels := fun _ => none }

/-- `saveKey(id, key, dhLabel)`.  JavaScript `if (dhLabel)` treats the empty
string as falsy, so only a non-empty label is recorded (with a NUL byte
appended, via the `'ascii'` encoding). -/
def saveKey (st : KeyStore) (id : String) (key : KeyEntry)
    (dhLabel : Option String) : KeyStore :=
  let st1 : KeyStore :=
    { st with savedKeys := fun i => if i = id then some key else st.savedKeys i }
  match dhLabel with
  | none => st1
  | some l =>
    if l = "" then st1
    else
      { st1 with keyLabels := fun i =>
          if i = id then some (asciiBytes l ++ [0]) else st.keyLabels i }

/-- `extractDH(keyid, share, mode)`.  The result is the shared secret and the
context blob `label || lengthPrefix(receiverPub) || lengthPrefix(senderPub)`.
A raw `Buffer` stored under the id has no `getPublicKey` method, hence the
`TypeError`; `savedKeys[undefined]` is a miss, hence `noDhKey` when the
caller supplied no keyid. -/
def extractDH (st : KeyStore) (keyid : Option String) (share : ByteList)
    (mode : String) : Except EceError (ByteList × ByteList) :=
  match keyid with
  | none => .error .noDhKey
  | some id =>
    match st.savedKeys id with
    | none => .error .noDhKey
    | some key =>
      match st.keyLabels id with
      | none => .error .noDhLabel
      | some label =>
        if mode = MODE_ENCRYPT then
          match key with
          | .raw _ => .error .typeError
          | .ecdh pub cs =>
            .ok (cs share, label ++ lengthPrefixed share ++ lengthPrefixed pub)
        else if mode = MODE_DECRYPT then
          match key with
          | .raw _ => .error .typeError
          | .ecdh pub cs =>
            .ok (cs share, label ++ lengthPrefixed pub ++ lengthPrefixed share)
        else .error .unknownMode

/-- The header-parameter bundle shared by both operations (after the base64
boundary): the recognized members of the `params` object. -/
structure Params where
  salt : Option ByteList
  rs : Option Nat
  keyid : Option String
  key : Option ByteList
  dh : Option ByteList
  authSecret : Option ByteList
  pad : Option Nat
  padSize : Option Nat

/-- The internal `header` object the dispatcher builds from `Params`. -/
structure Header where
  type : String
  salt : Option ByteList
  rs : Nat
  keyid : Option String
  key : Option ByteList
  dh : Option ByteList
  authSecret : Option ByteList

/-- `extractSecretAndContext(header, mode)`: resolve the input keying
material and DH context, then mix in `authSecret` when present. -/
def extractSecretAndContext (hmac : ByteList → ByteList → ByteList)
    (st : KeyStore) (header : Header) (mode : String) :
    Except EceError (ByteList × ByteList) :=
  let resolved : Except EceError (ByteList × ByteList) :=
    match header.key with
    | some k =>
      if k.length ≠ KEY_LENGTH then .error .badKeyLength else .ok (k, [])
    | none =>
      match header.dh with
      | some share => extractDH st header.keyid share mode
      | none =>
        match header.keyid with
        | some id =>
          match st.savedKeys id with
          | some (.raw b) => .ok (b, [])
          -- an ECDH object passes the `!result.secret` check but explodes as
          -- soon as it is fed to `hmac.update`
          | some (.ecdh _ _) => .error .typeError
          | none => .error .unableToDetermineKey
        | none => .error .unableToDetermineKey
  match resolved with
  | .error e => .error e
  | .ok (secret, context) =>
    match header.authSecret with
    | none => .ok (secret, context)
    | some as =>
      .ok (HKDF hmac as secret (infoBytes ("auth") []) SHA_256_LENGTH, context)

/-- The `keyInfo` / `nonceInfo` branch of `deriveKeyAndNonce`.  Note the
source uses the literal `'Content-Encoding: aesgcm128\0'` for `aes128gcm`
too.  The final branch is a `ReferenceError` (`params.type` is not in scope)
in the source; it is unreachable for the three dispatched variants. -/
def keyNonceInfos (type : String) (context : ByteList) :
    Except EceError (ByteList × ByteList) :=
  if type = typeAesgcm128 then
    .ok (asciiBytes ("Content-Encoding: aesgcm128"), asciiBytes ("Content-Encoding: nonce"))
  else if type = typeAesgcm then
    .ok (infoBytes ("aesgcm") context, infoBytes ("nonce") context)
  else if type = typeAes128gcm then
    .ok (asciiBytes ("Content-Encoding: aesgcm128") ++ [0],
         asciiBytes ("Content-Encoding: nonce") ++ [0])
  else .error .unknownVariant

/-- The `(key, nonceBase)` pair derived by `deriveKeyAndNonce`. -/
structure KeyNonce where
  key : ByteList
  nonce : ByteList
  deriving Repr, DecidableEq

def deriveKeyAndNonce (hmac : ByteList → ByteList → ByteList) (st : KeyStore)
    (header : Header) (mode : String) : Except EceError KeyNonce :=
  match header.salt with
  | none => .error .missingSalt
  | some salt =>
    match extractSecretAndContext hmac st header mode with
    | .error e => .error e
    | .ok (secret, context) =>
      let prk := HKDF_extract hmac salt secret
      match keyNonceInfos header.type context with
      | .error e => .error e
      | .ok (keyInfo, nonceInfo) =>
        .ok { key := HKDF_expand hmac prk keyInfo KEY_LENGTH,
              nonce := HKDF_expand hmac prk nonceInfo NONCE_LENGTH }

/-- `determineRecordSize(rs, type)`: `none` models a missing or non-numeric
`rs` (`parseInt` returned `NaN`).  For an unknown type `PAD_SIZE[type]` is
`undefined` and `rs <= undefined` is false, so the value passes through. -/
def determineRecordSize (rs : Option Nat) (type : String) : Except EceError Nat :=
  match rs with
  | none => .ok 4096
  | some v =>
    match PAD_SIZEMap type with
    | none => .ok v
    | some padSize =>
      if v ≤ padSize then .error .badRecordSize else .ok v

/-- `extractSalt` after base64 decoding (only called on a present salt). -/
def extractSalt (salt : ByteList) : Except EceError ByteList :=
  if salt.length ≠ KEY_LENGTH then .error .badSaltLength else .ok salt

/-- `parseParams(params)`: decrypt/encrypt entry for the legacy variants
(`padSize === 1` selects `aesgcm128`). -/
def parseParams (p : Params) : Except EceError Header :=
  let type := if p.padSize = some 1 then typeAesgcm128 else typeAesgcm
  let saltR : Except EceError (Option ByteList) :=
    match p.salt with
    | none => .ok none
    | some s =>
      match extractSalt s with
      | .error e => .error e
      | .ok s2 => .ok (some s2)
  match saltR with
  | .error e => .error e
  | .ok salt =>
    match determineRecordSize p.rs type with
    | .error e => .error e
    | .ok rs =>
      .ok { type := type, salt := salt, rs := rs, keyid := p.keyid,
            key := p.key, dh := p.dh, authSecret := p.authSecret }

/-- The AES-128-GCM backend (`crypto.createCipheriv` / `createDecipheriv`),
a black-box collaborator.  `enc` is the keystream part (ciphertext has the
plaintext's length for GCM, and the two `gcm.update` calls concatenate),
`tag` is `getAuthTag`, and `dec` returns `none` when `gcm.final()` throws on
authentication failure. -/
structure Aead where
  enc : ByteList → ByteList → ByteList → ByteList
  tag : ByteList → ByteList → ByteList → ByteList
  dec : ByteList → ByteList → ByteList → ByteList → Option ByteList

/-- `encryptRecord(key, counter, buffer, pad, padSize)`: the cleartext of a
record is a `padSize`-byte big-endian pad length, `pad` zero bytes, then the
data slice; the tag is appended. -/
def encryptRecord (aead : Aead) (key : KeyNonce) (counter : Nat)
    (buffer : ByteList) (pad padSize : Nat) : Except EceError ByteList :=
  let nonce := generateNonce key.nonce counter
  let padding := natToBE padSize pad ++ List.replicate pad 0
  let cleartext := padding ++ buffer
  let tag := aead.tag key.key nonce cleartext
  if tag.length ≠ TAG_LENGTH then .error .invalidTag
  else .ok (aead.enc key.key nonce cleartext ++ tag)

/-- `decryptRecord(key, counter, buffer, header)`: strip the 16-byte tag,
authenticate and decrypt, then validate and remove the padding.  Reading the
pad length needs `padSize` bytes of cleartext (node's `readUIntBE` throws a
`RangeError` otherwise). -/
def decryptRecord (aead : Aead) (key : KeyNonce) (counter : Nat)
    (buffer : ByteList) (padSize : Nat) : Except EceError ByteList :=
  let nonce := generateNonce key.nonce counter
  let tag := buffer.drop (buffer.length - TAG_LENGTH)
  let ct := buffer.take (buffer.length - TAG_LENGTH)
  match aead.dec key.key nonce ct tag with
  | none => .error .aeadFailure
  | some data =>
    if data.length < padSize then .error .rangeError
    else
      let pad := readUIntBE (data.take padSize)
      if data.length < pad + padSize then .error .paddingExceedsBlock
      else if (data.drop padSize).take pad = List.replicate pad 0 then
        .ok (data.drop (padSize + pad))
      else .error .invalidPadding

/-- The record walk of `decrypt`: blocks of `rs + 16` wire bytes; a block
ending exactly at the buffer end is a truncation; a block of at most 16
bytes is too small.  Fuel `buffer.length + 1` always suffices (each
iteration consumes more than 16 bytes). -/
def decryptBodyLoop (aead : Aead) (key : KeyNonce) (rs padSize : Nat) :
    Nat → ByteList → Nat → Except EceError ByteList
  | 0, _, _ => .error .outOfFuel
  | fuel + 1, buffer, i =>
    if buffer.length = 0 then .ok []
    else if buffer.length = rs + TAG_LENGTH then .error .truncated
    else
      let e := min (rs + TAG_LENGTH) buffer.length
      if e ≤ TAG_LENGTH then .error .blockTooSmall
      else
        match decryptRecord aead key i (buffer.take e) padSize with
        | .error err => .error err
        | .ok block =>
          match decryptBodyLoop aead key rs padSize fuel (buffer.drop e) (i + 1) with
          | .error err => .error err
          | .ok rest => .ok (block ++ rest)

/-- `decrypt(buffer, params)`.  With a caller-supplied salt this is the
legacy path (`header.len` is `undefined` there, so `buffer.slice(header.len)`
keeps the whole buffer).  Without a salt the source runs
`readHeader(buffer, params)` — but `readHeader` is declared
`readHeader(params, buffer)`, so the params object lands in the buffer slot
and its first statement, `buffer.readUIntBE(20, 1)`, throws a `TypeError`:
the `aes128gcm` decrypt path can never run. -/
def decrypt (hmac : ByteList → ByteList → ByteList) (aead : Aead)
    (st : KeyStore) (buffer : ByteList) (p : Params) : Except EceError ByteList :=
  if p.salt.isSome then
    match parseParams p with
    | .error e => .error e
    | .ok header =>
      match deriveKeyAndNonce hmac st header MODE_DECRYPT with
      | .error e => .error e
      | .ok key =>
        decryptBodyLoop aead key header.rs (PAD_SIZE header.type)
          (buffer.length + 1) buffer 0
  else .error .typeError

/-- The record loop of `encrypt` (`for (var i = 0; start <= buffer.length; ++i)`);
returns the records and the unspent pad budget.  Each iteration takes
`recordPad = min(2^(8·padSize)−1, rs−padSize−1, pad)` and advances the data
cursor by `rs − padSize − recordPad`; the loop continues while the new cursor
is at most the data length (the `<=` emits a trailing padding-only record).
Fuel `data.length + 1` suffices whenever `padSize < rs` (the advance is then
at least 1); with `rs ≤ padSize` the JavaScript loop would spin forever,
which the fuel turns into `outOfFuel` — unreachable past
`determineRecordSize`. -/
def encryptLoop (aead : Aead) (key : KeyNonce) (rs padSize : Nat) :
    Nat → ByteList → Nat → Nat → Except EceError (List ByteList × Nat)
  | 0, _, _, _ => .error .outOfFuel
  | fuel + 1, data, pad, counter =>
    let maxPad := 2 ^ (padSize * 8) - 1
    let recordPad := min maxPad (min (rs - padSize - 1) pad)
    let adv := rs - padSize - recordPad
    match encryptRecord aead key counter (data.take adv) recordPad padSize with
    | .error e => .error e
    | .ok record =>
      if data.length < adv then .ok ([record], pad - recordPad)
      else
        match encryptLoop aead key rs padSize fuel (data.drop adv)
            (pad - recordPad) (counter + 1) with
        | .error e => .error e
        | .ok (rest, leftover) => .ok (record :: rest, leftover)

/-- The loop plus the final `if (pad) throw` budget check of `encrypt`. -/
def encryptRecords (aead : Aead) (key : KeyNonce) (rs padSize : Nat)
    (data : ByteList) (pad : Nat) : Except EceError ByteList :=
  match encryptLoop aead key rs padSize (data.length + 1) data pad 0 with
  | .error e => .error e
  | .ok (records, leftover) =>
    if leftover ≠ 0 then .error .padBudgetExhausted else .ok records.flatten

/-- `encodeHeader(header)`: `salt || rs (4 bytes BE) || idlen || keyid`.
`writeUIntBE(rs, 0, 4)` throws a `RangeError` for `rs ≥ 2^32`. -/
def encodeHeader (header : Header) : Except EceError ByteList :=
  let keyid := asciiBytes (header.keyid.getD "")
  if keyid.length > 255 then .error .keyidTooLong
  else if 2 ^ 32 ≤ header.rs then .error .rangeError
  else .ok (header.salt.getD [] ++ natToBE 4 header.rs ++
            natToBE 1 keyid.length ++ keyid)

/-- `encrypt(buffer, params)`.  `randomSalt` stands for the
`crypto.randomBytes(KEY_LENGTH)` drawn on the `aes128gcm` path. -/
def encrypt (hmac : ByteList → ByteList → ByteList) (aead : Aead)
    (st : KeyStore) (randomSalt : ByteList) (buffer : ByteList) (p : Params) :
    Except EceError ByteList :=
  match parseParams p with
  | .error e => .error e
  | .ok header0 =>
    let headerStep : Except EceError (ByteList × Header) :=
      if p.salt.isSome then .ok ([], header0)
      else
        let h2 := { header0 with type := typeAes128gcm, salt := some randomSalt }
        match encodeHeader h2 with
        | .error e => .error e
        | .ok hb => .ok (hb, h2)
    match headerStep with
    | .error e => .error e
    | .ok (headerBytes, header1) =>
      match determineRecordSize p.rs header1.type with
      | .error e => .error e
      | .ok rs =>
        let header := { header1 with rs := rs }
        match deriveKeyAndNonce hmac st header MODE_ENCRYPT with
        | .error e => .error e
        | .ok key =>
          let padSize := PAD_SIZE header.type
          let pad := p.pad.getD 0
          match encryptRecords aead key rs padSize buffer pad with
          | .error e => .error e
          | .ok body => .ok (headerBytes ++ body)

/-! Claim-side definitions, following the spec's words (for comparison with
the translated source). -/

/-- Claim side, spec §4.1: `T(0) = ∅`,
`T(i) = HMAC-SHA256(prk, T(i−1) || info || byte(i))`. -/
def Tseq (hmac : ByteList → ByteList → ByteList) (prk info : ByteList) :
    Nat → ByteList
  | 0 => []
  | i + 1 => hmac prk (Tseq hmac prk info i ++ info ++ [(i + 1) % 256])

/-- Claim side, spec §4.1: the concatenation `T(1) || T(2) || … || T(n)`. -/
def Tconcat (hmac : ByteList → ByteList → ByteList) (prk info : ByteList) :
    Nat → ByteList
  | 0 => []
  | n + 1 => Tconcat hmac prk info n ++ Tseq hmac prk info (n + 1)

/-- Claim side, spec §4.6: the greedy per-record pad taken from a remaining
budget: `min(maxPad, rs − padSize − 1, remainingBudget)`. -/
def claimStep (rs padSize budget : Nat) : Nat :=
  min (2 ^ (padSize * 8) - 1) (min (rs - padSize - 1) budget)

/-- Claim side: the remaining pad budget before record `j`. -/
def claimBudget (rs padSize pad : Nat) : Nat → Nat
  | 0 => pad
  | j + 1 =>
    claimBudget rs padSize pad j -
      claimStep rs padSize (claimBudget rs padSize pad j)

/-- Claim side: the pad placed in record `j`. -/
def claimRecordPad (rs padSize pad j : Nat) : Nat :=
  claimStep rs padSize (claimBudget rs padSize pad j)

/-- Claim side: the data-cursor advance of record `j`,
`rs − padSize − recordPad`. -/
def claimAdvance (rs padSize pad j : Nat) : Nat :=
  rs - padSize - claimRecordPad rs padSize pad j

/-- Claim side: the plaintext cursor before record `j` (the sum of the
advances of the previous records). -/
def claimOffset (rs padSize pad : Nat) : Nat → Nat
  | 0 => 0
  | j + 1 => claimOffset rs padSize pad j + claimAdvance rs padSize pad j

/-! Concrete instances of the external collaborators, used to evaluate the
model on closed inputs. -/

/-- A stand-in for HMAC-SHA256: constant 32-byte digest (satisfies the only
contract the library relies on, the digest length). -/
def toyHmac : ByteList → ByteList → ByteList := fun _ _ => List.replicate 32 0

/-- A stand-in for AES-128-GCM satisfying the AEAD contract: identity
keystream, constant 16-byte tag, decryption inverts encryption. -/
def toyAead : Aead :=
  { enc := fun _ _ cleartext => cleartext,
    tag := fun _ _ _ => List.replicate 16 0,
    dec := fun _ _ ct _ => some ct }

def toyKey : KeyNonce :=
  { key := List.replicate 16 0, nonce := List.replicate 12 0 }

/-- A stand-in for `ECDH.computeSecret`. -/
def toyCompute : ByteList → ByteList := fun share => 42 :: share

/-- `aes128gcm` encrypt parameters: explicit 16-byte key, everything else
defaulted (no salt, so the in-band-header variant is selected). -/
def c1params : Params :=
  { salt := none, rs := none, keyid := none,
    key := some (List.replicate 16 1), dh := none,
    authSecret := none, pad := none, padSize := none }

/-- The ciphertext `encrypt` produces for plaintext `[1, 2, 3]` under
`c1params` with `toyHmac`/`toyAead` and an all-zero random salt: the 21-byte
header (salt, rs = 4096, idlen = 0), then one record whose cleartext is the
2-byte zero padding field followed by the data, then the tag. -/
def c1cipher : ByteList :=
  List.replicate 16 0 ++ [0, 0, 16, 0, 0] ++ [0, 0, 1, 2, 3] ++
    List.replicate 16 0

/-- A store holding one ECDH entry with label `"P-256"` under id `"a"`. -/
def toyStore : KeyStore :=
  saveKey emptyStore "a" (.ecdh [9] toyCompute) (some "P-256")

/-- A header with both an explicit key and an auth secret (for the key
schedule claim). -/
def c4header : Header :=
  { type := typeAesgcm, salt := some (List.replicate 16 0), rs := 4096,
    keyid := none, key := some (List.replicate 16 1), dh := none,
    authSecret := some [7] }

/-! Helper lemmas about the byte codecs. -/

theorem readUIntBE_append (bs : ByteList) (b : Nat) :
    readUIntBE (bs ++ [b]) = readUIntBE bs * 256 + b := by
  simp [readUIntBE]

theorem readUIntBE_lt (bs : ByteList) (h : ∀ b ∈ bs, b < 256) :
    readUIntBE bs < 256 ^ bs.length := by
  induction bs using List.reverseRecOn with
  | nil => simp [readUIntBE]
  | append_singleton xs x ih =>
    have hx : x < 256 := h x (by simp)
    have hxs := ih (fun b hb => h b (by simp [hb]))
    rw [readUIntBE_append]
    have h1 : readUIntBE xs * 256 + x < (readUIntBE xs + 1) * 256 := by
      omega
    have h2 : (readUIntBE xs + 1) * 256 ≤ 256 ^ xs.length * 256 :=
      Nat.mul_le_mul_right 256 hxs
    simp only [List.length_append, List.length_singleton, pow_succ]
    omega

theorem natToBE_length (w v : Nat) : (natToBE w v).length = w := by
  induction w generalizing v with
  | zero => simp [natToBE]
  | succ w ih => simp [natToBE, ih]

theorem natToBE_readUIntBE (bs : ByteList) (h : ∀ b ∈ bs, b < 256) :
    natToBE bs.length (readUIntBE bs) = bs := by
  induction bs using List.reverseRecOn with
  | nil => simp [natToBE, readUIntBE]
  | append_singleton xs x ih =>
    have hx : x < 256 := h x (by simp)
    have hxs : ∀ b ∈ xs, b < 256 := fun b hb => h b (by simp [hb])
    rw [readUIntBE_append]
    have hlen : (xs ++ [x]).length = xs.length + 1 := by simp
    rw [hlen]
    show natToBE (xs.length + 1) (readUIntBE xs * 256 + x) = xs ++ [x]
    have hdiv : (readUIntBE xs * 256 + x) / 256 = readUIntBE xs := by
      rw [Nat.mul_comm, Nat.mul_add_div (by norm_num)]
      simp [Nat.div_eq_of_lt hx]
    have hmod : (readUIntBE xs * 256 + x) % 256 = x := by
      rw [Nat.add_comm, Nat.add_mul_mod_self_right, Nat.mod_eq_of_lt hx]
    simp only [natToBE, hdiv, hmod, ih hxs]

theorem xor_div_two_pow (a b k : Nat) :
    (a ^^^ b) / 2 ^ k = a / 2 ^ k ^^^ b / 2 ^ k := by
  rw [← Nat.shiftRight_eq_div_pow, ← Nat.shiftRight_eq_div_pow,
    ← Nat.shiftRight_eq_div_pow]
  apply Nat.eq_of_testBit_eq
  intro i
  simp [Nat.testBit_shiftRight, Nat.testBit_xor]

theorem xor_mod_two_pow (a b k : Nat) :
    (a ^^^ b) % 2 ^ k = a % 2 ^ k ^^^ b % 2 ^ k := by
  apply Nat.eq_of_testBit_eq
  intro i
  simp only [Nat.testBit_mod_two_pow, Nat.testBit_xor]
  by_cases hik : i < k <;> simp [hik]

theorem natToBE_xor (w : Nat) : ∀ a b : Nat,
    natToBE w (a ^^^ b) =
      List.zipWith (fun x y => x ^^^ y) (natToBE w a) (natToBE w b) := by
  induction w with
  | zero => intro a b; simp [natToBE]
  | succ w ih =>
    intro a b
    simp only [natToBE]
    rw [List.zipWith_append _ (natToBE w (a / 256)) [a % 256]
        (natToBE w (b / 256)) [b % 256] (by simp [natToBE_length])]
    have h256 : (256 : Nat) = 2 ^ 8 := by norm_num
    have hdiv : (a ^^^ b) / 256 = a / 256 ^^^ b / 256 := by
      rw [h256, xor_div_two_pow]
    have hmod : (a ^^^ b) % 256 = a % 256 ^^^ b % 256 := by
      rw [h256, xor_mod_two_pow]
    rw [hdiv, hmod, ih]
    simp

/-- C3: `generateNonce(base, i)` on a 12-byte base with `i < 2^48` returns
the base with its last 6 bytes XORed with the 6-byte big-endian encoding of
`i`; the first 6 bytes are unchanged.  The two 24-bit-half arithmetic of the
source is equivalent to this byte-wise XOR. -/
theorem generateNonce_xor (base : ByteList) (counter : Nat)
    (hlen : base.length = 12) (hb : ∀ b ∈ base, b < 256)
    (hc : counter < 2 ^ 48) :
    generateNonce base counter =
      base.take 6 ++
        List.zipWith (fun x y => x ^^^ y) (base.drop 6) (natToBE 6 counter) := by
  have hdlen : (base.drop 6).length = 6 := by simp [hlen]
  have hdb : ∀ b ∈ base.drop 6, b < 256 := fun b hb2 => hb b (List.mem_of_mem_drop hb2)
  have hm : readUIntBE (base.drop 6) < 2 ^ 48 := by
    have := readUIntBE_lt (base.drop 6) hdb
    rw [hdlen] at this
    norm_num at this ⊢
    exact this
  unfold generateNonce
  rw [hlen]
  norm_num
  set m := readUIntBE (base.drop 6) with hmdef
  have hq : m ^^^ counter < 2 ^ 48 := Nat.xor_lt_two_pow hm hc
  have e1 : (m ^^^ counter) &&& 16777215 = (m ^^^ counter) % 2 ^ 24 := by
    have : (16777215 : Nat) = 2 ^ 24 - 1 := by norm_num
    rw [this, Nat.and_pow_two_sub_one_eq_mod]
  have e2 : m / 16777216 ^^^ counter / 16777216 = (m ^^^ counter) / 2 ^ 24 := by
    have : (16777216 : Nat) = 2 ^ 24 := by norm_num
    rw [this, xor_div_two_pow]
  have e3 : (m ^^^ counter) / 2 ^ 24 < 2 ^ 24 := by
    rw [Nat.div_lt_iff_lt_mul (by norm_num)]
    calc m ^^^ counter < 2 ^ 48 := hq
    _ = 2 ^ 24 * 2 ^ 24 := by norm_num
  have e4 : (m ^^^ counter) / 2 ^ 24 &&& 16777215 = (m ^^^ counter) / 2 ^ 24 := by
    have : (16777215 : Nat) = 2 ^ 24 - 1 := by norm_num
    rw [this, Nat.and_pow_two_sub_one_eq_mod, Nat.mod_eq_of_lt e3]
  have ex : ((m ^^^ counter) &&& 16777215) +
      ((m / 16777216 ^^^ counter / 16777216) &&& 16777215) * 16777216 =
      m ^^^ counter := by
    rw [e1, e2, e4]
    have : (16777216 : Nat) = 2 ^ 24 := by norm_num
    rw [this, Nat.mod_add_div']
  rw [ex, natToBE_xor]
  have hrd : natToBE 6 m = base.drop 6 := by
    have h5 := natToBE_readUIntBE (base.drop 6) hdb
    rw [hdlen] at h5
    exact h5
  rw [hrd]

/-- C3 witness: the theorem applied at a concrete base and counter. -/
theorem generateNonce_xor_witness :
    generateNonce [1, 2, 3, 4, 5, 6, 7, 8, 9, 10, 11, 12] 300 =
      [1, 2, 3, 4, 5, 6] ++
        List.zipWith (fun x y => x ^^^ y) ([7, 8, 9, 10, 11, 12])
          (natToBE 6 300) :=
  generateNonce_xor [1, 2, 3, 4, 5, 6, 7, 8, 9, 10, 11, 12] 300 (by decide)
    (by decide) (by decide)

/-! Lemmas about the HKDF expand loop. -/

theorem Tconcat_length (hmac : ByteList → ByteList → ByteList)
    (prk info : ByteList) (hh : ∀ k m, (hmac k m).length = 32) (n : Nat) :
    (Tconcat hmac prk info n).length = 32 * n := by
  induction n with
  | zero => simp [Tconcat]
  | succ n ih =>
    simp only [Tconcat, List.length_append, ih, Tseq, hh]
    ring

theorem Tconcat_take (hmac : ByteList → ByteList → ByteList)
    (prk info : ByteList) (hh : ∀ k m, (hmac k m).length = 32)
    (l : Nat) : ∀ b a : Nat, a ≤ b → l ≤ 32 * a →
    (Tconcat hmac prk info b).take l = (Tconcat hmac prk info a).take l := by
  intro b
  induction b with
  | zero =>
    intro a hab _
    interval_cases a
    rfl
  | succ b ih =>
    intro a hab hla
    rcases Nat.lt_or_ge a (b + 1) with hlt | hge
    · have hab2 : a ≤ b := by omega
      rw [← ih a hab2 hla]
      show (Tconcat hmac prk info b ++ Tseq hmac prk info (b + 1)).take l = _
      rw [List.take_append_of_le_length]
      rw [Tconcat_length hmac prk info hh]
      calc l ≤ 32 * a := hla
      _ ≤ 32 * b := by omega
    · have : a = b + 1 := by omega
      rw [this]

theorem HKDF_expandLoop_eq (hmac : ByteList → ByteList → ByteList)
    (prk info : ByteList) (l : Nat) (hh : ∀ k m, (hmac k m).length = 32) :
    ∀ fuel counter : Nat, l ≤ 32 * counter + 32 * fuel →
    HKDF_expandLoop hmac prk info l fuel (Tconcat hmac prk info counter)
        (Tseq hmac prk info counter) counter =
      (Tconcat hmac prk info (counter + fuel)).take l := by
  intro fuel
  induction fuel with
  | zero =>
    intro counter _
    rfl
  | succ fuel ih =>
    intro counter h
    have hred : HKDF_expandLoop hmac prk info l (fuel + 1)
        (Tconcat hmac prk info counter) (Tseq hmac prk info counter) counter =
        if (Tconcat hmac prk info counter).length < l then
          HKDF_expandLoop hmac prk info l fuel
            (Tconcat hmac prk info (counter + 1))
            (Tseq hmac prk info (counter + 1)) (counter + 1)
        else (Tconcat hmac prk info counter).take l := rfl
    rw [hred]
    by_cases hlen : (Tconcat hmac prk info counter).length < l
    · rw [if_pos hlen, ih (counter + 1) (by omega)]
      have hc : counter + 1 + fuel = counter + (fuel + 1) := by omega
      rw [hc]
    · rw [if_neg hlen]
      rw [Tconcat_length hmac prk info hh] at hlen
      exact (Tconcat_take hmac prk info hh l (counter + (fuel + 1)) counter
        (by omega) (by omega)).symm

/-- C8: `HKDF_expand(prk, info, L)` for `L ≤ 255·32` equals the first `L`
bytes of `T(1) || T(2) || …` where `T(0) = ∅` and
`T(i) = HMAC-SHA256(prk, T(i−1) || info || byte(i))` — here any `n` with
`L ≤ 32·n` blocks of the concatenation. -/
theorem HKDF_expand_spec (hmac : ByteList → ByteList → ByteList)
    (prk info : ByteList) (l n : Nat) (hh : ∀ k m, (hmac k m).length = 32)
    (hl : l ≤ 255 * 32) (hn : l ≤ 32 * n) :
    HKDF_expand hmac prk info l = (Tconcat hmac prk info n).take l := by
  unfold HKDF_expand
  have h0 := HKDF_expandLoop_eq hmac prk info l hh l 0 (by omega)
  have hz : Tconcat hmac prk info 0 = ([] : ByteList) := rfl
  have hzT : Tseq hmac prk info 0 = ([] : ByteList) := rfl
  rw [hz, hzT] at h0
  rw [h0]
  rcases Nat.le_total n (0 + l) with hc | hc
  · exact Tconcat_take hmac prk info hh l (0 + l) n hc hn
  · exact (Tconcat_take hmac prk info hh l n (0 + l) hc (by omega)).symm

/-- C8 witness: the theorem applied with the concrete digest stand-in. -/
theorem HKDF_expand_spec_witness :
    HKDF_expand toyHmac [1] [2] 20 = (Tconcat toyHmac [1] [2] 1).take 20 :=
  HKDF_expand_spec toyHmac [1] [2] 20 1 (fun _ _ => rfl) (by norm_num)
    (by norm_num)

/-- C4: with `authSecret` present the input keying material is replaced by
`HKDF(salt = authSecret, ikm = IKM, info = "Content-Encoding: auth" ++ NUL,
L = 32)`; then `PRK = HMAC-SHA256(salt, IKM)`, the content key is
`expand(PRK, keyInfo, 16)` and the nonce base is
`expand(PRK, nonceInfo, 12)`. -/
theorem deriveKeyAndNonce_authSecret (hmac : ByteList → ByteList → ByteList)
    (st : KeyStore) (header : Header) (mode : String)
    (salt k as ki ni : ByteList)
    (hsalt : header.salt = some salt) (hkey : header.key = some k)
    (hklen : k.length = KEY_LENGTH) (hauth : header.authSecret = some as)
    (hinfo : keyNonceInfos header.type [] = .ok (ki, ni)) :
    deriveKeyAndNonce hmac st header mode =
      .ok { key := HKDF_expand hmac
              (hmac salt (HKDF hmac as k
                (asciiBytes ("Content-Encoding: auth") ++ [0]) 32)) ki 16,
            nonce := HKDF_expand hmac
              (hmac salt (HKDF hmac as k
                (asciiBytes ("Content-Encoding: auth") ++ [0]) 32)) ni 12 } := by
  have hstr : infoBytes ("auth") [] =
      asciiBytes ("Content-Encoding: auth") ++ [0] := by
    show asciiBytes ("Content-Encoding: " ++ "auth") ++ [0] ++ [] = _
    rfl
  unfold deriveKeyAndNonce extractSecretAndContext
  rw [hsalt, hkey, hauth, hstr]
  simp only [hklen, KEY_LENGTH, ne_eq, not_true_eq_false, reduceIte,
    SHA_256_LENGTH, hinfo, HKDF_extract, NONCE_LENGTH]

/-- C4 witness: the theorem applied at a concrete header and digest. -/
theorem deriveKeyAndNonce_authSecret_witness :
    deriveKeyAndNonce toyHmac emptyStore c4header MODE_ENCRYPT =
      .ok { key := List.replicate 16 0, nonce := List.replicate 12 0 } := by
  rw [deriveKeyAndNonce_authSecret toyHmac emptyStore c4header MODE_ENCRYPT
    (List.replicate 16 0) (List.replicate 16 1) [7]
    (infoBytes ("aesgcm") []) (infoBytes ("nonce") [])
    rfl rfl rfl rfl (by decide)]
  decide

/-- C1: the `aes128gcm` round trip fails in the source.  `encrypt` succeeds
(in-band 21-byte header, then one record), but `decrypt` without a salt
parameter runs `readHeader(buffer, params)` whose arguments are swapped
relative to the declaration `readHeader(params, buffer)`, so it throws a
`TypeError` before touching any record: `decrypt(encrypt(m, P), P')` can
never return `m` for this variant. -/
theorem decrypt_aes128gcm_typeError :
    encrypt toyHmac toyAead emptyStore (List.replicate 16 0) [1, 2, 3]
        c1params = .ok c1cipher ∧
    decrypt toyHmac toyAead emptyStore c1cipher c1params =
      .error .typeError := by
  decide

/-- C2: the source has no `aes128gcm` delimiter bit.  With the identity
keystream the record cleartext is visible in `c1cipher`: the final (only)
record of the encryption starts at byte 21, and its first padding byte is
`0` — high bit clear even on the last record.  `decryptRecord` accepts that
record without any last-record-bit check. -/
theorem aes128gcm_delimiter_missing :
    encrypt toyHmac toyAead emptyStore (List.replicate 16 0) [1, 2, 3]
        c1params = .ok c1cipher ∧
    c1cipher.get? 21 = some 0 ∧
    decryptRecord toyAead toyKey 0 ([0, 0, 1, 2, 3] ++ List.replicate 16 0) 2 =
      .ok [1, 2, 3] := by
  decide

/-- C6: for a record that passes GCM authentication (`aead.dec` returns the
cleartext `data`, which has at least `padSize` bytes), `decryptRecord` reads
the leading `padSize` bytes as a big-endian pad count; it rejects the record
when `pad + padSize` exceeds the cleartext length, rejects it when any of
the `pad` bytes after the length field is non-zero, and otherwise returns
exactly the bytes after position `padSize + pad`. -/
theorem decryptRecord_padding (aead : Aead) (key : KeyNonce) (counter : Nat)
    (buffer data : ByteList) (padSize : Nat)
    (hdec : aead.dec key.key (generateNonce key.nonce counter)
        (buffer.take (buffer.length - TAG_LENGTH))
        (buffer.drop (buffer.length - TAG_LENGTH)) = some data)
    (hps : padSize ≤ data.length) :
    (data.length < readUIntBE (data.take padSize) + padSize →
      decryptRecord aead key counter buffer padSize =
        .error .paddingExceedsBlock) ∧
    (readUIntBE (data.take padSize) + padSize ≤ data.length →
      (∀ b ∈ (data.drop padSize).take (readUIntBE (data.take padSize)), b = 0) →
      decryptRecord aead key counter buffer padSize =
        .ok (data.drop (padSize + readUIntBE (data.take padSize)))) ∧
    (readUIntBE (data.take padSize) + padSize ≤ data.length →
      (∃ b ∈ (data.drop padSize).take (readUIntBE (data.take padSize)), b ≠ 0) →
      decryptRecord aead key counter buffer padSize =
        .error .invalidPadding) := by
  have heq : decryptRecord aead key counter buffer padSize =
      (if data.length < padSize then .error .rangeError
       else if data.length < readUIntBE (data.take padSize) + padSize then
         .error .paddingExceedsBlock
       else if (data.drop padSize).take (readUIntBE (data.take padSize)) =
           List.replicate (readUIntBE (data.take padSize)) 0 then
         .ok (data.drop (padSize + readUIntBE (data.take padSize)))
       else .error .invalidPadding) := by
    have hz : decryptRecord aead key counter buffer padSize =
        (match aead.dec key.key (generateNonce key.nonce counter)
            (buffer.take (buffer.length - TAG_LENGTH))
            (buffer.drop (buffer.length - TAG_LENGTH)) with
          | none => .error .aeadFailure
          | some d =>
            if d.length < padSize then .error .rangeError
            else if d.length < readUIntBE (d.take padSize) + padSize then
              .error .paddingExceedsBlock
            else if (d.drop padSize).take (readUIntBE (d.take padSize)) =
                List.replicate (readUIntBE (d.take padSize)) 0 then
              .ok (d.drop (padSize + readUIntBE (d.take padSize)))
            else .error .invalidPadding) := rfl
    rw [hz, hdec]
  refine ⟨?_, ?_, ?_⟩
  · intro hover
    rw [heq, if_neg (by omega), if_pos hover]
  · intro hle hzero
    have hwl : ((data.drop padSize).take (readUIntBE (data.take padSize))).length =
        readUIntBE (data.take padSize) := by
      simp only [List.length_take, List.length_drop]
      omega
    rw [heq, if_neg (by omega), if_neg (by omega),
      if_pos (List.eq_replicate_iff.mpr ⟨hwl, hzero⟩)]
  · intro hle hnz
    obtain ⟨b, hbmem, hbne⟩ := hnz
    have hne : (data.drop padSize).take (readUIntBE (data.take padSize)) ≠
        List.replicate (readUIntBE (data.take padSize)) 0 := by
      intro hc
      exact hbne ((List.eq_replicate_iff.mp hc).2 b hbmem)
    rw [heq, if_neg (by omega), if_neg (by omega), if_neg hne]

/-- C6 witness: a 19-byte record whose cleartext is `[0, 0, 5]` (pad count 0)
is accepted and yields `[5]`. -/
theorem decryptRecord_padding_witness :
    decryptRecord toyAead toyKey 0 ([0, 0, 5] ++ List.replicate 16 0) 2 =
      .ok [5] :=
  ((decryptRecord_padding toyAead toyKey 0 ([0, 0, 5] ++ List.replicate 16 0)
      [0, 0, 5] 2 (by decide) (by decide)).2.1 (by decide)
    (by decide)).trans (by decide)

/-- C7: the legacy record walk.  At any point of the walk with a non-empty
rest of the buffer: (i) if the rest is exactly one wire record
(`rs + 16` bytes) the walk fails with the truncation error; (ii) a final
block of at most 16 bytes (the tag length) is rejected as too small;
(iii) a final block strictly between 16 and `rs + 16` bytes is accepted as
the terminator — the walk reduces to decrypting exactly that record; and
(iv) with more than `rs + 16` bytes remaining, one record of `rs + 16` wire
bytes is consumed and the walk continues. -/
theorem decrypt_framing_legacy (aead : Aead) (key : KeyNonce)
    (rs padSize fuel : Nat) (buffer : ByteList) (i : Nat)
    (hne : buffer ≠ []) (hfuel : buffer.length < fuel) :
    (buffer.length = rs + TAG_LENGTH →
      decryptBodyLoop aead key rs padSize fuel buffer i = .error .truncated) ∧
    (buffer.length ≠ rs + TAG_LENGTH → buffer.length ≤ TAG_LENGTH →
      decryptBodyLoop aead key rs padSize fuel buffer i =
        .error .blockTooSmall) ∧
    (TAG_LENGTH < buffer.length → buffer.length < rs + TAG_LENGTH →
      decryptBodyLoop aead key rs padSize fuel buffer i =
        decryptRecord aead key i buffer padSize) ∧
    (0 < rs → rs + TAG_LENGTH < buffer.length →
      decryptBodyLoop aead key rs padSize fuel buffer i =
        match decryptRecord aead key i (buffer.take (rs + TAG_LENGTH)) padSize with
        | .error err => .error err
        | .ok block =>
          match decryptBodyLoop aead key rs padSize (fuel - 1)
              (buffer.drop (rs + TAG_LENGTH)) (i + 1) with
          | .error err => .error err
          | .ok rest => .ok (block ++ rest)) := by
  have hlen0 : buffer.length ≠ 0 := by
    intro hc
    exact hne (List.length_eq_zero.mp hc)
  cases fuel with
  | zero => omega
  | succ f =>
    have hred : decryptBodyLoop aead key rs padSize (f + 1) buffer i =
        if buffer.length = 0 then .ok []
        else if buffer.length = rs + TAG_LENGTH then .error .truncated
        else if min (rs + TAG_LENGTH) buffer.length ≤ TAG_LENGTH then
          .error .blockTooSmall
        else
          match decryptRecord aead key i
              (buffer.take (min (rs + TAG_LENGTH) buffer.length)) padSize with
          | .error err => .error err
          | .ok block =>
            match decryptBodyLoop aead key rs padSize f
                (buffer.drop (min (rs + TAG_LENGTH) buffer.length)) (i + 1) with
            | .error err => .error err
            | .ok rest => .ok (block ++ rest) := rfl
    have hT : TAG_LENGTH = 16 := rfl
    refine ⟨?_, ?_, ?_, ?_⟩
    · intro h
      rw [hred, if_neg hlen0, if_pos h]
    · intro h1 h2
      rw [hred, if_neg hlen0, if_neg h1, if_pos (by omega)]
    · intro h1 h2
      have hmin : min (rs + TAG_LENGTH) buffer.length = buffer.length := by omega
      rw [hred, if_neg hlen0, if_neg (by omega), if_neg (by omega), hmin,
        List.take_length, List.drop_length]
      have hrest : decryptBodyLoop aead key rs padSize f [] (i + 1) = .ok [] := by
        cases f with
        | zero => omega
        | succ f2 => rfl
      rw [hrest]
      cases decryptRecord aead key i buffer padSize with
      | error err => rfl
      | ok block => simp
    · intro hrs h1
      have hmin : min (rs + TAG_LENGTH) buffer.length = rs + TAG_LENGTH := by
        omega
      rw [hred, if_neg hlen0, if_neg (by omega), if_neg (by omega), hmin]
      have hf : f + 1 - 1 = f := rfl
      rw [hf]

/-- C7 witness: a 20-byte buffer with `rs = 4` ends exactly on a record
boundary (`4 + 16`), so the walk reports a truncated payload. -/
theorem decrypt_framing_legacy_witness :
    decryptBodyLoop toyAead toyKey 4 2 21 (List.replicate 20 0) 0 =
      .error .truncated :=
  (decrypt_framing_legacy toyAead toyKey 4 2 21 (List.replicate 20 0) 0
    (by decide) (by decide)).1 (by decide)

/-- C9 counterexample: `determineRecordSize` accepts `rs = 2^32`, which is
greater than `2^32 − 1` — no upper bound is enforced there. -/
theorem determineRecordSize_no_upper_bound :
    determineRecordSize (some (2 ^ 32)) typeAesgcm = .ok (2 ^ 32) := by
  decide

/-- C9 (amended): a missing or non-numeric `rs` defaults to 4096 and
`rs ≤ padSize` is rejected (this runs on both encrypt and decrypt via
`parseParams` and the `encrypt` entry); but `determineRecordSize` enforces
no upper bound — any `rs > padSize` is accepted — and an `rs ≥ 2^32` fails
only when `encrypt` writes the `aes128gcm` binary header. -/
theorem determineRecordSize_spec (t : String) (p v : Nat) (s : ByteList)
    (hp : PAD_SIZEMap t = some p) :
    determineRecordSize none t = .ok 4096 ∧
    (v ≤ p → determineRecordSize (some v) t = .error .badRecordSize) ∧
    (p < v → determineRecordSize (some v) t = .ok v) ∧
    (2 ^ 32 ≤ v →
      encodeHeader { type := typeAes128gcm, salt := some s, rs := v,
                     keyid := none, key := none, dh := none,
                     authSecret := none } =
        .error .rangeError) := by
  refine ⟨rfl, ?_, ?_, ?_⟩
  · intro h
    simp [determineRecordSize, hp, h]
  · intro h
    simp [determineRecordSize, hp, Nat.not_le.mpr h]
  · intro h
    have ha : asciiBytes "" = [] := rfl
    simp [encodeHeader, ha, h]
    omega

/-- C9 witness: the amended statement at `aesgcm` (padSize 2) with `rs`
values 2, 3 and `2^32`. -/
theorem determineRecordSize_spec_witness :
    determineRecordSize none typeAesgcm = .ok 4096 ∧
    determineRecordSize (some 2) typeAesgcm = .error .badRecordSize ∧
    determineRecordSize (some 3) typeAesgcm = .ok 3 ∧
    encodeHeader { type := typeAes128gcm, salt := some [], rs := 2 ^ 32,
                   keyid := none, key := none, dh := none,
                   authSecret := none } =
      .error .rangeError :=
  ⟨(determineRecordSize_spec typeAesgcm 2 2 [] (by decide)).1,
   (determineRecordSize_spec typeAesgcm 2 2 [] (by decide)).2.1 (by decide),
   (determineRecordSize_spec typeAesgcm 2 3 [] (by decide)).2.2.1 (by decide),
   (determineRecordSize_spec typeAesgcm 2 (2 ^ 32) [] (by decide)).2.2.2
     (by norm_num)⟩

/-- C10: `saveKey(id, key)` with no label replaces the key material under
`id` but leaves every label in place — including the one previously
registered for `id`, which a later ECDH operation under that id then uses —
and leaves every other identifier's entry unchanged; `saveKey(id, key,
dhLabel)` with a non-empty label stores the label with a NUL terminator
appended. -/
theorem saveKey_frame (st : KeyStore) (id : String) (key : KeyEntry)
    (l : String) (lab share pub : ByteList) (cs : ByteList → ByteList)
    (hl : l ≠ "") (hlab : st.keyLabels id = some lab) :
    (saveKey st id key none).savedKeys id = some key ∧
    (∀ i, (saveKey st id key none).keyLabels i = st.keyLabels i) ∧
    (∀ i, i ≠ id → (saveKey st id key none).savedKeys i = st.savedKeys i) ∧
    (saveKey st id key (some l)).keyLabels id = some (asciiBytes l ++ [0]) ∧
    (∀ i, i ≠ id → (saveKey st id key (some l)).savedKeys i = st.savedKeys i ∧
      (saveKey st id key (some l)).keyLabels i = st.keyLabels i) ∧
    extractDH (saveKey st id (.ecdh pub cs) none) (some id) share MODE_ENCRYPT =
      .ok (cs share, lab ++ lengthPrefixed share ++ lengthPrefixed pub) := by
  refine ⟨?_, ?_, ?_, ?_, ?_, ?_⟩
  · simp [saveKey]
  · intro i
    rfl
  · intro i hi
    simp [saveKey, hi]
  · simp [saveKey, hl]
  · intro i hi
    constructor
    · simp [saveKey, hl, hi]
    · simp [saveKey, hl, hi]
  · show extractDH { savedKeys := _, keyLabels := st.keyLabels } (some id)
      share MODE_ENCRYPT = _
    unfold extractDH
    simp [hlab]

/-- C10 witness: re-saving under id `"a"` without a label keeps the stale
`"P-256"` label, and the next ECDH extraction under `"a"` uses it. -/
theorem saveKey_frame_witness :
    (saveKey toyStore "a" (.raw [2]) none).savedKeys "a" = some (.raw [2]) ∧
    (saveKey toyStore "a" (.raw [2]) none).keyLabels "a" =
      some (asciiBytes ("P-256") ++ [0]) ∧
    extractDH (saveKey toyStore "a" (.ecdh [9] toyCompute) none) (some "a") [3]
        MODE_ENCRYPT =
      .ok (toyCompute [3],
        (asciiBytes ("P-256") ++ [0]) ++ lengthPrefixed [3] ++
          lengthPrefixed [9]) := by
  have h := saveKey_frame toyStore "a" (.raw [2]) "x"
    (asciiBytes ("P-256") ++ [0]) [3] [9] toyCompute (by decide) rfl
  exact ⟨h.1, (h.2.1 "a").trans rfl, h.2.2.2.2.2⟩

/-! Lemmas about the claim-side pad-distribution recurrences: peeling the
first record off shifts the budget, pad, advance and offset sequences. -/

theorem claimBudget_shift (rs padSize pad : Nat) : ∀ j,
    claimBudget rs padSize pad (j + 1) =
      claimBudget rs padSize (pad - claimStep rs padSize pad) j := by
  intro j
  induction j with
  | zero => rfl
  | succ j ih =>
    show claimBudget rs padSize pad (j + 1) -
        claimStep rs padSize (claimBudget rs padSize pad (j + 1)) = _
    rw [ih]
    rfl

theorem claimRecordPad_shift (rs padSize pad j : Nat) :
    claimRecordPad rs padSize pad (j + 1) =
      claimRecordPad rs padSize (pad - claimStep rs padSize pad) j := by
  unfold claimRecordPad
  rw [claimBudget_shift]

theorem claimAdvance_shift (rs padSize pad j : Nat) :
    claimAdvance rs padSize pad (j + 1) =
      claimAdvance rs padSize (pad - claimStep rs padSize pad) j := by
  unfold claimAdvance
  rw [claimRecordPad_shift]

theorem claimOffset_shift (rs padSize pad : Nat) : ∀ j,
    claimOffset rs padSize pad (j + 1) =
      claimAdvance rs padSize pad 0 +
        claimOffset rs padSize (pad - claimStep rs padSize pad) j := by
  intro j
  induction j with
  | zero =>
    show claimOffset rs padSize pad 0 + claimAdvance rs padSize pad 0 = _
    simp [claimOffset]
  | succ j ih =>
    show claimOffset rs padSize pad (j + 1) + claimAdvance rs padSize pad (j + 1) = _
    rw [ih, claimAdvance_shift]
    show _ = claimAdvance rs padSize pad 0 +
      (claimOffset rs padSize (pad - claimStep rs padSize pad) j +
        claimAdvance rs padSize (pad - claimStep rs padSize pad) j)
    omega

/-- Loop invariant for `encryptLoop`: every record the loop emits was built
with the claim-side greedy pad and the claim-side data window, and the
returned leftover is the claim-side remaining budget after all records. -/
theorem encryptLoop_spec (aead : Aead) (key : KeyNonce) (rs padSize : Nat) :
    ∀ (fuel : Nat) (data : ByteList) (pad counter : Nat)
      (recs : List ByteList) (leftover : Nat),
    encryptLoop aead key rs padSize fuel data pad counter = .ok (recs, leftover) →
    (∀ j, (hj : j < recs.length) →
      encryptRecord aead key (counter + j)
          ((data.drop (claimOffset rs padSize pad j)).take
            (claimAdvance rs padSize pad j))
          (claimRecordPad rs padSize pad j) padSize =
        .ok (recs.get ⟨j, hj⟩)) ∧
    leftover = claimBudget rs padSize pad recs.length := by
  intro fuel
  induction fuel with
  | zero =>
    intro data pad counter recs leftover h
    exact absurd h (by simp [encryptLoop])
  | succ fuel ih =>
    intro data pad counter recs leftover h
    have hred : encryptLoop aead key rs padSize (fuel + 1) data pad counter =
        (match encryptRecord aead key counter
            (data.take (claimAdvance rs padSize pad 0))
            (claimRecordPad rs padSize pad 0) padSize with
          | .error e => .error e
          | .ok record =>
            if data.length < claimAdvance rs padSize pad 0 then
              .ok ([record], claimBudget rs padSize pad 1)
            else
              match encryptLoop aead key rs padSize fuel
                  (data.drop (claimAdvance rs padSize pad 0))
                  (claimBudget rs padSize pad 1) (counter + 1) with
              | .error e => .error e
              | .ok (rest, leftover2) => .ok (record :: rest, leftover2)) := rfl
    rw [hred] at h
    split at h
    · exact absurd h (by simp)
    · rename_i record hrec
      split at h
      · rename_i hlast
        simp only [Except.ok.injEq, Prod.mk.injEq] at h
        obtain ⟨hrecs, hleft⟩ := h
        subst hrecs
        constructor
        · intro j hj
          have hj0 : j = 0 := by
            simp only [List.length_singleton] at hj
            omega
          subst hj0
          simpa [claimOffset] using hrec
        · simp [← hleft]
      · rename_i hlast
        split at h
        · exact absurd h (by simp)
        · rename_i rest leftover2 hrest
          simp only [Except.ok.injEq, Prod.mk.injEq] at h
          obtain ⟨hrecs, hleft⟩ := h
          subst hrecs
          have ihres := ih (data.drop (claimAdvance rs padSize pad 0))
            (claimBudget rs padSize pad 1) (counter + 1) rest leftover2 hrest
          have hb1 : claimBudget rs padSize pad 1 =
              pad - claimStep rs padSize pad := rfl
          constructor
          · intro j hj
            cases j with
            | zero =>
              simpa [claimOffset] using hrec
            | succ j =>
              have hj2 : j < rest.length := by
                simp only [List.length_cons] at hj
                omega
              have hstep := ihres.1 j hj2
              rw [hb1] at hstep
              have hoff := claimOffset_shift rs padSize pad j
              have hadv := claimAdvance_shift rs padSize pad j
              have hpad := claimRecordPad_shift rs padSize pad j
              rw [List.drop_drop] at hstep
              have hco : counter + 1 + j = counter + (j + 1) := by omega
              rw [hco, ← hoff, ← hadv, ← hpad] at hstep
              simpa using hstep
          · have hlen : (record :: rest).length = rest.length + 1 := rfl
            rw [hlen, claimBudget_shift, ← hb1, ← hleft]
            exact ihres.2

/-- C5: on encrypt, record `j` carries
`recordPad = min(2^(8·padSize) − 1, rs − padSize − 1, remaining budget)` of
padding and its data window starts where the previous record's window ended,
advancing `rs − padSize − recordPad` per record; after the loop, encrypt
fails with the pad-budget-exhausted error exactly when budget is left
over. -/
theorem encrypt_pad_distribution (aead : Aead) (key : KeyNonce)
    (rs padSize : Nat) (data : ByteList) (pad : Nat) (recs : List ByteList)
    (leftover : Nat)
    (hres : encryptLoop aead key rs padSize (data.length + 1) data pad 0 =
      .ok (recs, leftover)) :
    (∀ j, (hj : j < recs.length) →
      encryptRecord aead key j
          ((data.drop (claimOffset rs padSize pad j)).take
            (claimAdvance rs padSize pad j))
          (claimRecordPad rs padSize pad j) padSize =
        .ok (recs.get ⟨j, hj⟩)) ∧
    leftover = claimBudget rs padSize pad recs.length ∧
    encryptRecords aead key rs padSize data pad =
      (if leftover = 0 then .ok recs.flatten
       else .error .padBudgetExhausted) := by
  have hmain := encryptLoop_spec aead key rs padSize (data.length + 1) data
    pad 0 recs leftover hres
  refine ⟨?_, hmain.2, ?_⟩
  · intro j hj
    simpa using hmain.1 j hj
  · unfold encryptRecords
    rw [hres]
    by_cases hz : leftover = 0 <;> simp [hz]

/-- C5 witness: `rs = 4`, `padSize = 2`, data `[1, 2, 3]`, pad budget 1.
Record 0 absorbs the whole budget (`min(65535, rs − padSize − 1, 1) = 1`),
so its window is 1 byte; the remaining records carry no pad and the budget
is exhausted, so `encryptRecords` succeeds. -/
theorem encrypt_pad_distribution_witness :
    encryptRecord toyAead toyKey 0
        (([1, 2, 3] : ByteList).drop (claimOffset 4 2 1 0) |>.take
          (claimAdvance 4 2 1 0)) (claimRecordPad 4 2 1 0) 2 =
      .ok ([0, 1, 0, 1] ++ List.replicate 16 0) ∧
    (0 : Nat) = claimBudget 4 2 1 3 ∧
    encryptRecords toyAead toyKey 4 2 [1, 2, 3] 1 =
      .ok (([0, 1, 0, 1] ++ List.replicate 16 0) ++
        (([0, 0, 2, 3] ++ List.replicate 16 0) ++
          (([0, 0] ++ List.replicate 16 0) ++ []))) := by
  have h := encrypt_pad_distribution toyAead toyKey 4 2 [1, 2, 3] 1
    [[0, 1, 0, 1] ++ List.replicate 16 0, [0, 0, 2, 3] ++ List.replicate 16 0,
      [0, 0] ++ List.replicate 16 0] 0 (by decide)
  exact ⟨(h.1 0 (by decide)).trans (by decide), h.2.1,
    (h.2.2).trans (by decide)⟩

end Ece





